import Mathlib

/-!
Shallow embedding of `cardorganizer.py` (CardOrganizer).

The program classifies "character card" PNG files by scanning their decoded
character content for registered marker sequences, then routes each file to a
product/category directory, resolving filename collisions with a bracketed
numeric suffix.  Byte buffers are modelled as `List Char`, matching the
source, which reads files in text mode (`errors="replace"`) and works on a
Python `str`; the filesystem is modelled as a list of existing path strings.
A Python `IndexError` is modelled as `Except.error ()`.
-/

namespace CardOrganizer

/-- The value stored against each pattern in the automaton: either a
`(game_name, pattern_path)` pair, or the disambiguation tag for `"sex"`.
Mirrors the payloads of `trie.add_word` in `create_trie`. -/
inductive MarkerValue where
  | marker (game path : String)
  | sex
deriving DecidableEq

/-- The `games` registry table, verbatim from the source (the commented-out
`RG` studio entry is absent there, hence absent here). -/
def games : List (String × List (String × String)) :=
  [ ("KK",   [("chara", "【KoiKatuChara】"), ("chara", "【KoiKatuCharaS】"),
              ("chara", "【KoiKatuCharaSP】"), ("outfit", "【KoiKatuClothes】"),
              ("studio", "【KStudio】")]),
    ("KKS",  [("chara", "【KoiKatuCharaSun】")]),
    ("AI",   [("chara", "【AIS_Chara】"), ("outfit", "【AIS_Clothes】"),
              ("studio", "【StudioNEOV2】"), ("housing", "【AIS_Housing】")]),
    ("EC",   [("chara", "EroMakeChara"), ("hscene", "EroMakeHScene"),
              ("map", "EroMakeMap"), ("pose", "EroMakePose")]),
    ("HS",   [("female", "【HoneySelectCharaFemale】"), ("male", "【HoneySelectCharaMale】"),
              ("studio", "【-neo-】")]),
    ("PH",   [("female", "【PlayHome_Female】"), ("male", "【PlayHome_Male】"),
              ("studio", "【PHStudio】")]),
    ("SBPR", [("female", "【PremiumResortCharaFemale】"), ("male", "【PremiumResortCharaMale】")]),
    ("HC",   [("chara", "【HCChara】")]),
    ("AA2",  [("chara", "y�G�f�B�b�g�z"),
              ("studio", "\x00SCENE\x00")]),
    ("RG",   [("chara", "【RG_Chara】")]) ]

/-- The full pattern set of the automaton built by `create_trie`: every
registry marker with its `(game, path)` payload, plus the word `"sex"`. -/
def patterns : List (List Char × MarkerValue) :=
  (games.flatMap (fun gl => gl.2.map (fun pp => (pp.2.data, MarkerValue.marker gl.1 pp.1))))
    ++ [("sex".data, MarkerValue.sex)]

/-- Python `haystack.find(needle)` (first occurrence index), as an `Option`
instead of `-1`. -/
def findSub (needle hay : List Char) : Option Nat :=
  (List.range (hay.length + 1)).find? (fun i => (hay.drop i).take needle.length == needle)

/-- The characters of the terminator `"IEND"`. -/
def iendChars : List Char := "IEND".data

/-- `occursEndingAt data start p e`: pattern `p` occurs in `data` with its
last character at index `e`, the whole occurrence lying inside the region
`data[start:]`.  This is the region/occurrence semantics of the pyahocorasick
method `Automaton.iter(data, start)`, whose reported matches lie wholly within the
slice beginning at `start` and are keyed by the index of their last
character. -/
def occursEndingAt (data : List Char) (start : Nat) (p : List Char) (e : Nat) : Bool :=
  decide (start + p.length ≤ e + 1) && decide (e < data.length)
    && ((data.drop (e + 1 - p.length)).take p.length == p)

/-- The event stream of `trie.iter(data, start)`: for every end position in
ascending order, each registered pattern occurrence ending there, as a
`(end_index, value)` pair. -/
def matcherEvents (data : List Char) (start : Nat) : List (Nat × MarkerValue) :=
  (List.range data.length).flatMap
    (fun e => patterns.filterMap
      (fun pv => if occursEndingAt data start pv.1 e then some (e, pv.2) else none))

/-- One iteration of the `for end_index, value in trie.iter(...)` loop body of
`get_card_dir`, over the running state `(game_name, pattern_path, sex)`.
`data[end_index+1]` out of range is the Python `IndexError`, i.e. `.error ()`. -/
def step (data : List Char) (st : String × String × String) (ev : Nat × MarkerValue) :
    Except Unit (String × String × String) :=
  match ev.2 with
  | MarkerValue.sex =>
      if st.2.2 = "" then
        if h : ev.1 + 1 < data.length then
          let temp := data.get ⟨ev.1 + 1, h⟩
          if temp = '\x00' ∨ temp = '\x01' then Except.ok (st.1, st.2.1, String.mk [temp])
          else Except.ok st
        else Except.error ()
      else Except.ok st
  | MarkerValue.marker g p => Except.ok (g, p, st.2.2)

/-- The whole match-consuming loop of `get_card_dir`, from the initial state
`("", "", "")`. -/
def scan (data : List Char) (start : Nat) : Except Unit (String × String × String) :=
  (matcherEvents data start).foldlM (step data) ("", "", "")

/-- Lines 61–63 of the source: remap category `"chara"` according to the
recorded sentinel. -/
def disambig (pattern_path sex : String) : String :=
  if pattern_path = "chara" then
    if sex = "\x00" then "male"
    else if sex = "\x01" then "female"
    else pattern_path
  else pattern_path

/-- `os.path.join(a, b)` for POSIX paths, two arguments. -/
def oJoin (a b : String) : String :=
  if b.data.head? = some '/' then b
  else if a = "" ∨ a.data.getLast? = some '/' then a ++ b
  else a ++ "/" ++ b

/-- `get_card_dir(trie, data)`: find the first `"IEND"`; if absent return
`""`; otherwise consume the automaton events over the region starting at
that index, then disambiguate and join. -/
def get_card_dir (data : List Char) : Except Unit String :=
  match findSub iendChars data with
  | none => Except.ok ""
  | some i => (scan data i).map (fun st => oJoin st.1 (disambig st.2.1 st.2.2))

deriving instance DecidableEq for Except

/-- Decimal digit string of a natural number, with explicit fuel (first
argument); mirrors the Python `str(int)` rendering used by the f-string
`f"{base} ({index}){ext}"`. -/
def natReprAux : Nat → Nat → List Char
  | 0, _ => []
  | fuel + 1, n =>
      if n < 10 then [Nat.digitChar n]
      else natReprAux fuel (n / 10) ++ [Nat.digitChar (n % 10)]

/-- Python `str(n)` for a natural number. -/
def natRepr (n : Nat) : String := String.mk (natReprAux (n + 1) n)

/-- The whitespace characters stripped by the Python `str.strip()` (the ASCII
ones; no other character appears in the data this program strips). -/
def isPySpace (c : Char) : Bool :=
  c == ' ' || c == '\t' || c == '\n' || c == '\r' || c == '\x0b' || c == '\x0c'

/-- Python `str.strip()`. -/
def pyStrip (s : String) : String :=
  String.mk (((s.data.dropWhile isPySpace).reverse.dropWhile isPySpace).reverse)

/-- Python `str.endswith(t)`. -/
def endswith (s t : String) : Bool := List.isSuffixOf t.data s.data

/-- Python `str.rfind(c)` for a single character, as an `Option` instead of
`-1`. -/
def rfindIdx (l : List Char) (c : Char) : Option Nat :=
  ((List.range l.length).filter (fun i => l[i]? == some c)).getLast?

/-- `os.path.splitext(p)` (POSIX): split at the last `'.'` after the last
`'/'`, provided some non-dot character precedes it within the basename. -/
def splitext (p : String) : String × String :=
  let cs := p.data
  match rfindIdx cs '.' with
  | none => (p, "")
  | some d =>
      let fi := match rfindIdx cs '/' with
        | some s => if s < d then some (s + 1) else none
        | none => some 0
      match fi with
      | none => (p, "")
      | some f =>
          if (List.range' f (d - f)).any (fun j => !(cs.getD j '.' == '.')) then
            (String.mk (cs.take d), String.mk (cs.drop d))
          else (p, "")

/-- `re.match("^(.+)\(([0-9])\)$", base)`: the base must end in `"(<digit>)"`
(optionally followed by one final newline, which `$` tolerates), preceded by a
non-empty stem free of newlines (`.` does not match `'\n'`); returns the stem
(group 1) and the numeric value (`int`) of group 2.  The stem is the greedy
— and, the suffix having fixed length, the only — choice. -/
def parenMatch (base : String) : Option (String × Nat) :=
  match base.data.reverse with
  | ')' :: d :: '(' :: rest =>
      if d.isDigit ∧ rest ≠ [] ∧ ¬ '\n' ∈ rest then
        some (String.mk rest.reverse, d.toNat - '0'.toNat)
      else none
  | '\n' :: ')' :: d :: '(' :: rest =>
      if d.isDigit ∧ rest ≠ [] ∧ ¬ '\n' ∈ rest then
        some (String.mk rest.reverse, d.toNat - '0'.toNat)
      else none
  | _ => none

/-- The probe path of one loop iteration of `get_unused_path`:
`os.path.join(dirpath, f"{base} ({n}){ext}")`. -/
def candidate (dirpath base ext : String) (n : Nat) : String :=
  oJoin dirpath (base ++ " (" ++ natRepr n ++ ")" ++ ext)

theorem natReprAux_stable : ∀ n f1 f2, n < f1 → n < f2 → natReprAux f1 n = natReprAux f2 n := by
  intro n
  induction n using Nat.strong_induction_on with
  | _ n ih =>
    intro f1 f2 h1 h2
    match f1, f2 with
    | g1 + 1, g2 + 1 =>
      by_cases hlt : n < 10
      · simp [natReprAux, hlt]
      · have hq : n / 10 < n := Nat.div_lt_self (by omega) (by omega)
        simp only [natReprAux, hlt, if_false]
        rw [ih (n / 10) hq g1 g2 (by omega) (by omega)]

theorem natReprAux_eq (n : Nat) :
    natReprAux (n + 1) n =
      (if n < 10 then [] else natReprAux (n / 10 + 1) (n / 10)) ++ [Nat.digitChar (n % 10)] := by
  conv_lhs => rw [natReprAux]
  by_cases hlt : n < 10
  · rw [if_pos hlt, if_pos hlt, Nat.mod_eq_of_lt hlt]
    rfl
  · rw [if_neg hlt, if_neg hlt,
      natReprAux_stable (n / 10) n (n / 10 + 1) (Nat.div_lt_self (by omega) (by omega)) (by omega)]

theorem digitChar_inj : ∀ a, a < 10 → ∀ b, b < 10 → Nat.digitChar a = Nat.digitChar b → a = b := by
  decide

theorem natRepr_injective : Function.Injective natRepr := by
  intro n
  induction n using Nat.strong_induction_on with
  | _ n ih =>
    intro m h
    have hd : natReprAux (n + 1) n = natReprAux (m + 1) m := by
      have := congrArg String.data h
      simpa [natRepr] using this
    rw [natReprAux_eq n, natReprAux_eq m] at hd
    obtain ⟨h3, h4⟩ := List.append_inj' hd (by simp)
    have h5 : n % 10 = m % 10 := by
      have hdc : Nat.digitChar (n % 10) = Nat.digitChar (m % 10) := by
        injection h4
      exact digitChar_inj _ (Nat.mod_lt _ (by omega)) _ (Nat.mod_lt _ (by omega)) hdc
    by_cases hn : n < 10 <;> by_cases hm : m < 10
    · omega
    · rw [if_pos hn, if_neg hm] at h3
      have : natReprAux (m / 10 + 1) (m / 10) ≠ [] := by
        rw [natReprAux_eq]; simp
      exact absurd h3.symm this
    · rw [if_neg hn, if_pos hm] at h3
      have : natReprAux (n / 10 + 1) (n / 10) ≠ [] := by
        rw [natReprAux_eq]; simp
      exact absurd h3 this
    · rw [if_neg hn, if_neg hm] at h3
      have hq : n / 10 < n := Nat.div_lt_self (by omega) (by omega)
      have hdiv : n / 10 = m / 10 := ih (n / 10) hq (by simp [natRepr, h3])
      omega

theorem candidate_arg_head (b e : String) (n m : Nat) :
    (b ++ " (" ++ natRepr n ++ ")" ++ e).data.head? =
      (b ++ " (" ++ natRepr m ++ ")" ++ e).data.head? := by
  have hsp : (" (" : String).data = [' ', '('] := rfl
  simp only [String.data_append, hsp, List.append_assoc, List.cons_append]
  rw [List.head?_append, List.head?_append]
  simp

theorem candidate_arg_inj (b e : String) (n m : Nat)
    (h : b ++ " (" ++ natRepr n ++ ")" ++ e = b ++ " (" ++ natRepr m ++ ")" ++ e) : n = m := by
  apply natRepr_injective
  have hd := congrArg String.data h
  simp only [String.data_append, List.append_assoc] at hd
  have hd2 := List.append_cancel_left hd
  have hd3 := List.append_cancel_left hd2
  rw [← List.append_assoc, ← List.append_assoc] at hd3
  have hd4 := List.append_cancel_right hd3
  have hd5 := List.append_cancel_right hd4
  exact String.ext hd5

theorem candidate_injective (d b e : String) : Function.Injective (candidate d b e) := by
  intro n m h
  apply candidate_arg_inj b e
  unfold candidate oJoin at h
  by_cases hh : (b ++ " (" ++ natRepr n ++ ")" ++ e).data.head? = some '/'
  · have hh2 : (b ++ " (" ++ natRepr m ++ ")" ++ e).data.head? = some '/' := by
      rw [← candidate_arg_head b e n m]; exact hh
    rw [if_pos hh, if_pos hh2] at h
    exact h
  · have hh2 : ¬ (b ++ " (" ++ natRepr m ++ ")" ++ e).data.head? = some '/' := by
      rw [← candidate_arg_head b e n m]; exact hh
    rw [if_neg hh, if_neg hh2] at h
    by_cases hd : d = "" ∨ d.data.getLast? = some '/'
    · rw [if_pos hd, if_pos hd] at h
      apply String.ext
      have := congrArg String.data h
      simp only [String.data_append] at this
      exact List.append_cancel_left this
    · rw [if_neg hd, if_neg hd] at h
      have hdata := congrArg String.data h
      simp only [String.data_append, List.append_assoc] at hdata
      apply String.ext
      simp only [String.data_append, List.append_assoc]
      exact List.append_cancel_left (List.append_cancel_left hdata)

theorem exists_unused (fs : List String) (d b e : String) (start : Nat) :
    ∃ k, ¬ candidate d b e (start + k) ∈ fs := by
  by_contra hc
  push_neg at hc
  have hinj : Function.Injective (fun k => candidate d b e (start + k)) := by
    intro a c hac
    have := candidate_injective d b e hac
    omega
  have hsub : Set.range (fun k => candidate d b e (start + k)) ⊆ {x | x ∈ fs} := by
    rintro x ⟨k, rfl⟩
    exact hc k
  exact ((List.finite_toSet fs).subset hsub).not_infinite (Set.infinite_range_of_injective hinj)

/-- `get_unused_path(dirpath, filename)`, with the set of existing filesystem
paths (`os.path.exists`) made an explicit argument `fs`.  The `while` loop is
the least index at or after the starting one whose probe path is unused,
which `exists_unused` shows is well defined. -/
def get_unused_path (fs : List String) (dirpath filename : String) : String :=
  let path := oJoin dirpath filename
  if ¬ path ∈ fs then path
  else
    let be := splitext filename
    let fi : String × Nat :=
      match parenMatch be.1 with
      | some sd => (pyStrip sd.1 ++ be.2, sd.2)
      | none => (filename, 1)
    let be2 := splitext fi.1
    candidate dirpath be2.1 be2.2 (fi.2 + Nat.find (exists_unused fs dirpath be2.1 be2.2 fi.2))

/-- The per-directory file loop of `main` (lines 101–116, with `--testrun`
off): returns the ordered `(source, destination)` moves performed, threading
the set of existing paths through `os.makedirs`/`shutil.move` (ancestor
directories other than `dest_dir` itself are irrelevant to every stated
property and are not tracked), or `Except.error` if `get_card_dir` raises.
`readData` is the external byte-source collaborator (the lossy
`errors="replace"` text read of the file at a given path). -/
def processFiles (readData : String → List Char) (output_dir dirpath : String) :
    List String → List String → Except Unit (List (String × String) × List String)
  | [], fs => Except.ok ([], fs)
  | filename :: rest, fs =>
    if endswith filename ".png" then
      match get_card_dir (readData (oJoin dirpath filename)) with
      | Except.error e => Except.error e
      | Except.ok relative_dir =>
        if relative_dir = "" then processFiles readData output_dir dirpath rest fs
        else
          let filepath := oJoin dirpath filename
          let dest_dir := oJoin output_dir relative_dir
          let destpath := get_unused_path fs dest_dir filename
          match processFiles readData output_dir dirpath rest
              (dest_dir :: destpath :: fs.erase filepath) with
          | Except.error e => Except.error e
          | Except.ok mf => Except.ok ((filepath, destpath) :: mf.1, mf.2)
    else processFiles readData output_dir dirpath rest fs

theorem occursEndingAt_lt {data : List Char} {start : Nat} {p : List Char} {e : Nat}
    (h : occursEndingAt data start p e = true) : e < data.length := by
  unfold occursEndingAt at h
  simp only [Bool.and_eq_true, decide_eq_true_eq] at h
  exact h.1.2

theorem matcher_entry_fst {data : List Char} {start a : Nat} {pv : List Char × MarkerValue}
    {x : Nat × MarkerValue}
    (h : (if occursEndingAt data start pv.1 a then some (a, pv.2) else none) = some x) :
    x.1 = a := by
  split at h
  · injection h with h
    rw [← h]
  · cases h

theorem mem_matcherEvents {data : List Char} {start e : Nat} {v : MarkerValue} :
    (e, v) ∈ matcherEvents data start ↔
      ∃ p, (p, v) ∈ patterns ∧ occursEndingAt data start p e = true := by
  unfold matcherEvents
  simp only [List.mem_flatMap, List.mem_range, List.mem_filterMap]
  constructor
  · rintro ⟨a, _, pv, hpv, hif⟩
    have ha := matcher_entry_fst hif
    by_cases hocc : occursEndingAt data start pv.1 a
    · rw [if_pos hocc] at hif
      injection hif with hif
      refine ⟨pv.1, ?_, ?_⟩
      · have hv : pv.2 = v := congrArg Prod.snd hif
        rw [← hv]
        exact hpv
      · have he : a = e := congrArg Prod.fst hif
        rw [← he]
        exact hocc
    · rw [if_neg hocc] at hif
      cases hif
  · rintro ⟨p, hmem, hocc⟩
    exact ⟨e, occursEndingAt_lt hocc, (p, v), hmem, by rw [if_pos hocc]⟩

theorem matcherEvents_sorted (data : List Char) (start : Nat) :
    (matcherEvents data start).Pairwise (fun a b => a.1 ≤ b.1) := by
  unfold matcherEvents
  rw [List.pairwise_flatMap]
  constructor
  · intro a _
    rw [List.pairwise_filterMap]
    apply List.pairwise_of_forall_mem_list
    intro pv _ pw _ x hx y hy
    rw [Option.mem_def] at hx hy
    rw [matcher_entry_fst hx, matcher_entry_fst hy]
  · apply (List.pairwise_lt_range data.length).imp
    intro a b hab x hx y hy
    obtain ⟨pv, _, hxe⟩ := List.mem_filterMap.mp hx
    obtain ⟨pw, _, hye⟩ := List.mem_filterMap.mp hy
    rw [matcher_entry_fst hxe, matcher_entry_fst hye]
    omega

theorem exceptBind_ok {ε α β : Type} (a : α) (f : α → Except ε β) :
    (Except.ok a >>= f) = f a := rfl

theorem exceptBind_error {ε α β : Type} (e : ε) (f : α → Except ε β) :
    ((Except.error e : Except ε α) >>= f) = Except.error e := rfl

/-- The `(game_name, pattern_path)` payloads of the product-marker events of a
stream, in order (disambiguation events dropped). -/
def markerPayloads (events : List (Nat × MarkerValue)) : List (String × String) :=
  events.filterMap (fun ev => match ev.2 with
    | MarkerValue.marker g p => some (g, p)
    | MarkerValue.sex => none)

theorem getLastD_cons {α : Type} (a d : α) (l : List α) :
    ((a :: l).getLast?).getD d = (l.getLast?).getD a := by
  induction l generalizing a d with
  | nil => rfl
  | cons b t ih =>
    rw [List.getLast?_cons_cons]
    exact (ih b d).trans (ih b a).symm

/-- The classifier state after one `sex` event keeps the `(game, path)`
components; a marker event overwrites them.  Last product marker wins: after a
successful fold, the `(game_name, pattern_path)` components equal the last
product-marker payload (or the initial ones if there is none). -/
theorem foldlM_step_marker (data : List Char) :
    ∀ (events : List (Nat × MarkerValue)) (st : String × String × String) (g p s : String),
      events.foldlM (step data) st = Except.ok (g, p, s) →
      (g, p) = ((markerPayloads events).getLast?).getD (st.1, st.2.1) := by
  intro events
  induction events with
  | nil =>
    intro st g p s h
    simp only [List.foldlM_nil] at h
    injection h with h
    subst h
    rfl
  | cons ev rest ih =>
    intro st g p s h
    rw [List.foldlM_cons] at h
    obtain ⟨en, ev2⟩ := ev
    cases ev2 with
    | marker g2 p2 =>
      rw [show step data st (en, MarkerValue.marker g2 p2) = Except.ok (g2, p2, st.2.2) from rfl,
        exceptBind_ok] at h
      have h2 := ih (g2, p2, st.2.2) g p s h
      rw [show markerPayloads ((en, MarkerValue.marker g2 p2) :: rest)
            = (g2, p2) :: markerPayloads rest from rfl, getLastD_cons]
      exact h2
    | sex =>
      have hmp : markerPayloads ((en, MarkerValue.sex) :: rest) = markerPayloads rest := rfl
      rw [hmp]
      rw [show step data st (en, MarkerValue.sex)
            = (if st.2.2 = "" then
                if hlt : en + 1 < data.length then
                  if data.get ⟨en + 1, hlt⟩ = '\x00' ∨ data.get ⟨en + 1, hlt⟩ = '\x01' then
                    Except.ok (st.1, st.2.1, String.mk [data.get ⟨en + 1, hlt⟩])
                  else Except.ok st
                else Except.error ()
              else Except.ok st) from rfl] at h
      by_cases hs : st.2.2 = ""
      · rw [if_pos hs] at h
        by_cases hlt : en + 1 < data.length
        · rw [dif_pos hlt] at h
          by_cases hc : data.get ⟨en + 1, hlt⟩ = '\x00' ∨ data.get ⟨en + 1, hlt⟩ = '\x01'
          · rw [if_pos hc, exceptBind_ok] at h
            exact ih (st.1, st.2.1, String.mk [data.get ⟨en + 1, hlt⟩]) g p s h
          · rw [if_neg hc, exceptBind_ok] at h
            exact ih _ g p s h
        · rw [dif_neg hlt, exceptBind_error] at h
          cases h
      · rw [if_neg hs, exceptBind_ok] at h
        exact ih _ g p s h

/-- The sentinel recorded by the scan: the first `sex` event whose following
character exists and is one of the two sentinel values. -/
def firstSentinel (data : List Char) (events : List (Nat × MarkerValue)) : String :=
  ((events.filterMap (fun ev => match ev.2 with
      | MarkerValue.sex =>
          match data[ev.1 + 1]? with
          | some c => if c = '\x00' ∨ c = '\x01' then some (String.mk [c]) else none
          | none => none
      | MarkerValue.marker _ _ => none)).head?).getD ""

/-- First sentinel wins: after a successful fold the `sex` component is the
first recognized sentinel if the fold started unset, and the initial value
otherwise. -/
theorem foldlM_step_sex (data : List Char) :
    ∀ (events : List (Nat × MarkerValue)) (st : String × String × String) (g p s : String),
      events.foldlM (step data) st = Except.ok (g, p, s) →
      s = if st.2.2 = "" then firstSentinel data events else st.2.2 := by
  intro events
  induction events with
  | nil =>
    intro st g p s h
    simp only [List.foldlM_nil] at h
    injection h with h
    subst h
    show s = if s = "" then firstSentinel data [] else s
    by_cases hs : s = ""
    · rw [if_pos hs, hs]
      rfl
    · rw [if_neg hs]
  | cons ev rest ih =>
    intro st g p s h
    rw [List.foldlM_cons] at h
    obtain ⟨en, ev2⟩ := ev
    cases ev2 with
    | marker g2 p2 =>
      rw [show step data st (en, MarkerValue.marker g2 p2) = Except.ok (g2, p2, st.2.2) from rfl,
        exceptBind_ok] at h
      have h2 := ih (g2, p2, st.2.2) g p s h
      have hfs : firstSentinel data ((en, MarkerValue.marker g2 p2) :: rest)
          = firstSentinel data rest := rfl
      rw [hfs]
      exact h2
    | sex =>
      rw [show step data st (en, MarkerValue.sex)
            = (if st.2.2 = "" then
                if hlt : en + 1 < data.length then
                  if data.get ⟨en + 1, hlt⟩ = '\x00' ∨ data.get ⟨en + 1, hlt⟩ = '\x01' then
                    Except.ok (st.1, st.2.1, String.mk [data.get ⟨en + 1, hlt⟩])
                  else Except.ok st
                else Except.error ()
              else Except.ok st) from rfl] at h
      by_cases hs : st.2.2 = ""
      · rw [if_pos hs] at h
        by_cases hlt : en + 1 < data.length
        · rw [dif_pos hlt] at h
          have hgetq : data[en + 1]? = some (data.get ⟨en + 1, hlt⟩) :=
            List.getElem?_eq_getElem hlt
          by_cases hc : data.get ⟨en + 1, hlt⟩ = '\x00' ∨ data.get ⟨en + 1, hlt⟩ = '\x01'
          · rw [if_pos hc, exceptBind_ok] at h
            have h2 := ih _ g p s h
            have hne : ¬ (String.mk [data.get ⟨en + 1, hlt⟩] = "") := by
              intro hemp
              have : [data.get ⟨en + 1, hlt⟩] = ([] : List Char) := congrArg String.data hemp
              cases this
            rw [if_neg hne] at h2
            rw [if_pos hs, h2]
            show String.mk [data.get ⟨en + 1, hlt⟩] = firstSentinel data _
            rw [firstSentinel]
            simp only [List.filterMap_cons, hgetq, if_pos hc]
            rfl
          · rw [if_neg hc, exceptBind_ok] at h
            have h2 := ih _ g p s h
            rw [if_pos hs] at h2
            rw [if_pos hs, h2]
            show firstSentinel data rest = firstSentinel data _
            rw [firstSentinel, firstSentinel]
            simp only [List.filterMap_cons, hgetq, if_neg hc]
        · rw [dif_neg hlt, exceptBind_error] at h
          cases h
      · rw [if_neg hs, exceptBind_ok] at h
        have h2 := ih _ g p s h
        rw [if_neg hs] at h2
        rw [if_neg hs]
        exact h2

theorem disambig_empty (p : String) : disambig p "" = p := by
  rw [disambig]
  split
  · rw [if_neg (by decide), if_neg (by decide)]
  · rfl


/-- A buffer whose only marker occurrence lies before the terminator. -/
def exBefore : List Char := "【HCChara】IEND".data

/-- A buffer whose only marker occurrence lies after the terminator. -/
def exAfter : List Char := "IEND【HCChara】".data

/-- C1, counterexample to the claim as stated: in `exBefore` the marker
`【HCChara】` ends at index 8, at or before the first terminator occurrence at
index 9, yet the matcher reports no event at all (the scan region starts at
the terminator, it does not end there). -/
theorem claim1_counterexample :
    findSub iendChars exBefore = some 9
      ∧ occursEndingAt exBefore 0 "【HCChara】".data 8 = true
      ∧ matcherEvents exBefore 9 = [] := by
  decide

/-- C1 (amended): for every buffer containing the terminator, the matcher
produces exactly the occurrences of registered markers (including the
disambiguation marker `sex`) lying wholly within the suffix of the buffer
that begins at the first occurrence of the terminator, in ascending order of
match end position. -/
theorem claim1_matcher_region (data : List Char) (i : Nat)
    (_hfind : findSub iendChars data = some i) :
    (∀ e v, ((e, v) ∈ matcherEvents data i ↔
        ∃ p, (p, v) ∈ patterns ∧ occursEndingAt data i p e = true))
      ∧ (matcherEvents data i).Pairwise (fun a b => a.1 ≤ b.1) :=
  ⟨fun _ _ => mem_matcherEvents, matcherEvents_sorted data i⟩

/-- C1, witness instantiating `claim1_matcher_region` on `exAfter`. -/
theorem claim1_witness :
    findSub iendChars exAfter = some 0
      ∧ ((∀ e v, ((e, v) ∈ matcherEvents exAfter 0 ↔
          ∃ p, (p, v) ∈ patterns ∧ occursEndingAt exAfter 0 p e = true))
        ∧ (matcherEvents exAfter 0).Pairwise (fun a b => a.1 ≤ b.1)) :=
  ⟨by decide, claim1_matcher_region exAfter 0 (by decide)⟩

/-- C2, counterexample to the claim as stated: `exBefore` contains the
terminator, exactly one product-marker occurrence (ending at 8, before the
first terminator occurrence at 9) and no disambiguation marker, yet
`get_card_dir` returns `""` (no destination), not the pair of that marker. -/
theorem claim2_counterexample :
    findSub iendChars exBefore = some 9
      ∧ matcherEvents exBefore 0 = [(8, MarkerValue.marker "HC" "chara")]
      ∧ get_card_dir exBefore = Except.ok ""
      ∧ ("" : String) ≠ oJoin "HC" "chara" := by
  decide

/-- C2 (amended): for every buffer containing the terminator whose scan
region (the suffix beginning at the first terminator occurrence) contains
exactly one registered marker occurrence, that occurrence a product marker,
classification returns the `(product, category)` pair of that marker unchanged. -/
theorem claim2_single_marker (data : List Char) (i e : Nat) (g p : String)
    (hfind : findSub iendChars data = some i)
    (hevents : matcherEvents data i = [(e, MarkerValue.marker g p)]) :
    get_card_dir data = Except.ok (oJoin g p) := by
  rw [get_card_dir, hfind]
  show Except.map _ (scan data i) = _
  rw [scan, hevents, List.foldlM_cons,
    show step data ("", "", "") (e, MarkerValue.marker g p) = Except.ok (g, p, "") from rfl,
    exceptBind_ok, List.foldlM_nil]
  show Except.ok (oJoin g (disambig p "")) = _
  rw [disambig_empty]

/-- C2, witness instantiating `claim2_single_marker` on `exAfter`. -/
theorem claim2_witness :
    findSub iendChars exAfter = some 0
      ∧ matcherEvents exAfter 0 = [(12, MarkerValue.marker "HC" "chara")]
      ∧ get_card_dir exAfter = Except.ok (oJoin "HC" "chara") :=
  ⟨by decide, by decide,
    claim2_single_marker exAfter 0 12 "HC" "chara" (by decide) (by decide)⟩

/-- C4: the claim says a disambiguation-marker occurrence ending at the very
last character must not make classification fail; but on `"IENDsex"` (where
the `sex` occurrence ends at the final index 6) the code evaluates
`data[end_index+1]` out of range and raises `IndexError`
(= `Except.error ()`), so the code contradicts the claim. -/
theorem claim4_sex_at_end_raises :
    matcherEvents "IENDsex".data 0 = [(6, MarkerValue.sex)]
      ∧ "IENDsex".data.length = 7
      ∧ get_card_dir "IENDsex".data = Except.error () := by
  decide

/-- C7: for every buffer with no occurrence of the terminator `IEND`
anywhere, classification returns `""` (no destination) without failing. -/
theorem claim7_no_terminator (data : List Char)
    (h : ∀ i, i < data.length → (data.drop i).take iendChars.length ≠ iendChars) :
    get_card_dir data = Except.ok "" := by
  have hfind : findSub iendChars data = none := by
    rw [findSub, List.find?_eq_none]
    intro i hi
    rw [Bool.not_eq_true, beq_eq_false_iff_ne]
    by_cases hlt : i < data.length
    · exact h i hlt
    · rw [List.drop_eq_nil_of_le (Nat.le_of_not_lt hlt)]
      intro hcontra
      exact absurd hcontra (by decide)
  rw [get_card_dir, hfind]

/-- C7, witness instantiating `claim7_no_terminator` on `"hello"`. -/
theorem claim7_witness :
    (∀ i, i < "hello".data.length →
        ("hello".data.drop i).take iendChars.length ≠ iendChars)
      ∧ get_card_dir "hello".data = Except.ok "" :=
  ⟨by decide, claim7_no_terminator "hello".data (by decide)⟩

/-- C6: when the scan ends with category `"chara"`, sentinel `"\x00"` remaps
it to `"male"`, sentinel `"\x01"` to `"female"`, and anything else leaves it
`"chara"`; any category other than `"chara"` is never remapped. -/
theorem claim6_chara_disambiguation (data : List Char) (i : Nat) (g p s : String)
    (hfind : findSub iendChars data = some i)
    (hscan : scan data i = Except.ok (g, p, s)) :
    (p = "chara" →
        (s = "\x00" → get_card_dir data = Except.ok (oJoin g "male"))
          ∧ (s = "\x01" → get_card_dir data = Except.ok (oJoin g "female"))
          ∧ (s ≠ "\x00" ∧ s ≠ "\x01" → get_card_dir data = Except.ok (oJoin g "chara")))
      ∧ (p ≠ "chara" → get_card_dir data = Except.ok (oJoin g p)) := by
  have hgcd : get_card_dir data = Except.ok (oJoin g (disambig p s)) := by
    rw [get_card_dir, hfind]
    show Except.map _ (scan data i) = _
    rw [hscan]
    rfl
  constructor
  · intro hp
    refine ⟨?_, ?_, ?_⟩
    · intro hs
      rw [hgcd, disambig, if_pos hp, if_pos hs]
    · intro hs
      rw [hgcd, disambig, if_pos hp, if_neg (by rw [hs]; decide), if_pos hs]
    · rintro ⟨h0, h1⟩
      rw [hgcd, disambig, if_pos hp, if_neg h0, if_neg h1, hp]
  · intro hp
    rw [hgcd, disambig, if_neg hp]

/-- A buffer with a product `chara` marker and a `sex` marker followed by the
male sentinel, all after the terminator. -/
def exChara : List Char := "IEND【HCChara】sex\x00".data

/-- C6, witness instantiating `claim6_chara_disambiguation` on `exChara`. -/
theorem claim6_witness :
    findSub iendChars exChara = some 0
      ∧ scan exChara 0 = Except.ok ("HC", "chara", "\x00")
      ∧ (("\x00" : String) = "\x00" → get_card_dir exChara = Except.ok (oJoin "HC" "male")) :=
  ⟨by decide, by decide,
    ((claim6_chara_disambiguation exChara 0 "HC" "chara" "\x00" (by decide) (by decide)).1
      rfl).1⟩

/-- C8: consuming an ascending-end-offset event stream, every product-marker
event overwrites the running pair unconditionally, so the structurally last
product-marker event — which by sortedness ends no earlier than every event
before it — determines the resulting `(product, category)` pair, regardless
of where any occurrence started. -/
theorem claim8_last_marker_wins (data : List Char) (events l1 l2 : List (Nat × MarkerValue))
    (g p s : String) (e2 : Nat) (g2 p2 : String)
    (hsorted : events.Pairwise (fun a b => a.1 ≤ b.1))
    (hsplit : events = l1 ++ (e2, MarkerValue.marker g2 p2) :: l2)
    (hnone : markerPayloads l2 = [])
    (hfold : events.foldlM (step data) ("", "", "") = Except.ok (g, p, s)) :
    (g, p) = (g2, p2) ∧ ∀ x ∈ l1, x.1 ≤ e2 := by
  constructor
  · have h1 := foldlM_step_marker data events ("", "", "") g p s hfold
    rw [hsplit] at h1
    rw [show markerPayloads (l1 ++ (e2, MarkerValue.marker g2 p2) :: l2)
          = markerPayloads l1 ++ (g2, p2) :: markerPayloads l2 from by
        rw [markerPayloads, markerPayloads, markerPayloads, List.filterMap_append]
        rfl] at h1
    rw [hnone, List.getLast?_concat] at h1
    exact h1
  · intro x hx
    rw [hsplit, List.pairwise_append] at hsorted
    exact hsorted.2.2 x hx _ (List.mem_cons_self _ _)

/-- C8, witness: two product markers in one sorted stream; the later-ending
`HC` marker wins. -/
theorem claim8_witness :
    ([(1, MarkerValue.marker "KK" "chara"), (5, MarkerValue.marker "HC" "chara")]
        : List (Nat × MarkerValue)).Pairwise (fun a b => a.1 ≤ b.1)
      ∧ ([(1, MarkerValue.marker "KK" "chara"),
          (5, MarkerValue.marker "HC" "chara")].foldlM (step []) ("", "", "")
          = Except.ok ("HC", "chara", ""))
      ∧ ((("HC" : String), ("chara" : String)) = ("HC", "chara")
          ∧ ∀ x ∈ [((1 : Nat), MarkerValue.marker "KK" "chara")], x.1 ≤ 5) :=
  ⟨by decide, by decide,
    claim8_last_marker_wins [] _ [(1, MarkerValue.marker "KK" "chara")] [] "HC" "chara" "" 5
      "HC" "chara" (by decide) rfl rfl (by decide)⟩

/-- C10: the recorded disambiguation flag is exactly the first `sex`
occurrence in the scan whose immediately following character exists and is
`"\x00"` or `"\x01"`; earlier occurrences followed by anything else do not
set it, and later occurrences never change it. -/
theorem claim10_first_sentinel (data : List Char) (i : Nat) (g p s : String)
    (_hfind : findSub iendChars data = some i)
    (hscan : scan data i = Except.ok (g, p, s)) :
    s = firstSentinel data (matcherEvents data i) := by
  have h := foldlM_step_sex data (matcherEvents data i) ("", "", "") g p s hscan
  rwa [if_pos rfl] at h

/-- A buffer with two `sex` occurrences: the first followed by `'Q'` (not a
sentinel), the second by `'\x00'`. -/
def exSex : List Char := "IENDsexQsex\x00".data

/-- C10, witness instantiating `claim10_first_sentinel` on `exSex`: the
sentinel of the second occurrence is recorded. -/
theorem claim10_witness :
    findSub iendChars exSex = some 0
      ∧ scan exSex 0 = Except.ok ("", "", "\x00")
      ∧ ("\x00" : String) = firstSentinel exSex (matcherEvents exSex 0) :=
  ⟨by decide, by decide,
    claim10_first_sentinel exSex 0 "" "" "\x00" (by decide) (by decide)⟩

theorem get_unused_path_none_eq (fs : List String) (dirpath filename : String)
    (hex : oJoin dirpath filename ∈ fs)
    (hpm : parenMatch (splitext filename).1 = none) :
    get_unused_path fs dirpath filename
      = candidate dirpath (splitext filename).1 (splitext filename).2
          (1 + Nat.find (exists_unused fs dirpath (splitext filename).1
              (splitext filename).2 1)) := by
  simp only [get_unused_path, hpm]
  rw [if_neg (not_not_intro hex)]

theorem get_unused_path_some_eq (fs : List String) (dirpath filename stem : String) (d : Nat)
    (hex : oJoin dirpath filename ∈ fs)
    (hpm : parenMatch (splitext filename).1 = some (stem, d)) :
    get_unused_path fs dirpath filename
      = candidate dirpath (splitext (pyStrip stem ++ (splitext filename).2)).1
          (splitext (pyStrip stem ++ (splitext filename).2)).2
          (d + Nat.find (exists_unused fs dirpath
              (splitext (pyStrip stem ++ (splitext filename).2)).1
              (splitext (pyStrip stem ++ (splitext filename).2)).2 d)) := by
  simp only [get_unused_path, hpm]
  rw [if_neg (not_not_intro hex)]

/-- C3: the namer always returns a path formed inside the requested directory
that does not exist at call time, and returns `<dir>/<filename>` itself
unchanged whenever that path does not exist. -/
theorem claim3_unused_path (fs : List String) (dirpath filename : String) :
    (¬ oJoin dirpath filename ∈ fs →
        get_unused_path fs dirpath filename = oJoin dirpath filename)
      ∧ ¬ get_unused_path fs dirpath filename ∈ fs
      ∧ ∃ name, get_unused_path fs dirpath filename = oJoin dirpath name := by
  by_cases hex : oJoin dirpath filename ∈ fs
  · cases hpm : parenMatch (splitext filename).1 with
    | none =>
      have heq := get_unused_path_none_eq fs dirpath filename hex hpm
      refine ⟨fun hcon => absurd hex hcon, ?_, ?_⟩
      · rw [heq]
        exact Nat.find_spec (exists_unused fs dirpath (splitext filename).1
          (splitext filename).2 1)
      · rw [heq, candidate]
        exact ⟨_, rfl⟩
    | some sd =>
      have heq := get_unused_path_some_eq fs dirpath filename sd.1 sd.2 hex (by rw [hpm])
      refine ⟨fun hcon => absurd hex hcon, ?_, ?_⟩
      · rw [heq]
        exact Nat.find_spec (exists_unused fs dirpath
          (splitext (pyStrip sd.1 ++ (splitext filename).2)).1
          (splitext (pyStrip sd.1 ++ (splitext filename).2)).2 sd.2)
      · rw [heq, candidate]
        exact ⟨_, rfl⟩
  · have heq : get_unused_path fs dirpath filename = oJoin dirpath filename := by
      simp only [get_unused_path]
      rw [if_pos hex]
    refine ⟨fun _ => heq, ?_, filename, heq⟩
    rw [heq]
    exact hex

/-- C3, witness instantiating `claim3_unused_path` on an empty directory. -/
theorem claim3_witness :
    (¬ oJoin "d" "card.png" ∈ ([] : List String) →
        get_unused_path [] "d" "card.png" = oJoin "d" "card.png")
      ∧ ¬ get_unused_path [] "d" "card.png" ∈ ([] : List String)
      ∧ ∃ name, get_unused_path [] "d" "card.png" = oJoin "d" name :=
  claim3_unused_path [] "d" "card.png"

/-- C5 (amended): when `<dir>/<filename>` exists and the base matches the
single-digit pattern `"<stem>(<d>)"` accepted by the regex in the code, probing
resumes at index `d` over the stripped stem, returning the first unused
probe; multi-digit indices are not recognized (see the counterexample). -/
theorem claim5_resume_numbering (fs : List String) (dirpath filename stem : String) (d : Nat)
    (hex : oJoin dirpath filename ∈ fs)
    (hpm : parenMatch (splitext filename).1 = some (stem, d)) :
    ∃ k, get_unused_path fs dirpath filename
          = candidate dirpath (splitext (pyStrip stem ++ (splitext filename).2)).1
              (splitext (pyStrip stem ++ (splitext filename).2)).2 (d + k)
        ∧ ¬ candidate dirpath (splitext (pyStrip stem ++ (splitext filename).2)).1
              (splitext (pyStrip stem ++ (splitext filename).2)).2 (d + k) ∈ fs
        ∧ ∀ j, j < k → candidate dirpath (splitext (pyStrip stem ++ (splitext filename).2)).1
              (splitext (pyStrip stem ++ (splitext filename).2)).2 (d + j) ∈ fs := by
  refine ⟨Nat.find (exists_unused fs dirpath
      (splitext (pyStrip stem ++ (splitext filename).2)).1
      (splitext (pyStrip stem ++ (splitext filename).2)).2 d),
    get_unused_path_some_eq fs dirpath filename stem d hex hpm,
    Nat.find_spec (exists_unused fs dirpath
      (splitext (pyStrip stem ++ (splitext filename).2)).1
      (splitext (pyStrip stem ++ (splitext filename).2)).2 d), ?_⟩
  intro j hj
  have hmin := Nat.find_min (exists_unused fs dirpath
    (splitext (pyStrip stem ++ (splitext filename).2)).1
    (splitext (pyStrip stem ++ (splitext filename).2)).2 d) hj
  rwa [not_not] at hmin

/-- The filesystem of the C5 counterexample: only `"d/card (10).png"`
exists. -/
def fsTen : List String := ["d/card (10).png"]

/-- C5, counterexample to "any non-empty digit string": the base
`"card (10)"` has a two-digit index, the regex does not match it, and probing
restarts at 1 with the whole base as stem, yielding `"d/card (10) (1).png"`
rather than the resumed `"d/card (11).png"`. -/
theorem claim5_counterexample :
    parenMatch (splitext "card (10).png").1 = none
      ∧ oJoin "d" "card (10).png" ∈ fsTen
      ∧ get_unused_path fsTen "d" "card (10).png" = "d/card (10) (1).png"
      ∧ ("d/card (10) (1).png" : String) ≠ "d/card (11).png" := by
  refine ⟨by decide, by decide, ?_, by decide⟩
  have heq := get_unused_path_none_eq fsTen "d" "card (10).png" (by decide) (by decide)
  have hfind0 : Nat.find (exists_unused fsTen "d" (splitext "card (10).png").1
      (splitext "card (10).png").2 1) = 0 := by
    rw [Nat.find_eq_zero]
    decide
  rw [heq, hfind0]
  decide

/-- The filesystem of the C5 witness: only `"d/card (3).png"` exists. -/
def fsThree : List String := ["d/card (3).png"]

/-- C5, witness instantiating `claim5_resume_numbering` on
`"card (3).png"`. -/
theorem claim5_witness :
    oJoin "d" "card (3).png" ∈ fsThree
      ∧ parenMatch (splitext "card (3).png").1 = some ("card ", 3)
      ∧ ∃ k, get_unused_path fsThree "d" "card (3).png"
            = candidate "d" (splitext (pyStrip "card " ++ (splitext "card (3).png").2)).1
                (splitext (pyStrip "card " ++ (splitext "card (3).png").2)).2 (3 + k)
          ∧ ¬ candidate "d" (splitext (pyStrip "card " ++ (splitext "card (3).png").2)).1
                (splitext (pyStrip "card " ++ (splitext "card (3).png").2)).2 (3 + k) ∈ fsThree
          ∧ ∀ j, j < k → candidate "d"
                (splitext (pyStrip "card " ++ (splitext "card (3).png").2)).1
                (splitext (pyStrip "card " ++ (splitext "card (3).png").2)).2 (3 + j) ∈ fsThree :=
  ⟨by decide, by decide,
    claim5_resume_numbering fsThree "d" "card (3).png" "card " 3 (by decide) (by decide)⟩

theorem processFiles_moves_src (readData : String → List Char) (output_dir dirpath : String) :
    ∀ (fns fs : List String) (moves : List (String × String)) (fsOut : List String),
      processFiles readData output_dir dirpath fns fs = Except.ok (moves, fsOut) →
      ∀ sd ∈ moves, ∃ g, g ∈ fns ∧ endswith g ".png" = true ∧ sd.1 = oJoin dirpath g := by
  intro fns
  induction fns with
  | nil =>
    intro fs moves fsOut h sd hsd
    simp only [processFiles] at h
    injection h with h
    rw [show moves = [] from (congrArg Prod.fst h).symm] at hsd
    cases hsd
  | cons f rest ih =>
    intro fs moves fsOut h sd hsd
    simp only [processFiles] at h
    by_cases hpng : endswith f ".png" = true
    · rw [if_pos hpng] at h
      split at h
      · cases h
      · rename_i relative_dir heq
        split at h
        · obtain ⟨g, hg, hg2, hg3⟩ := ih fs moves fsOut h sd hsd
          exact ⟨g, List.mem_cons_of_mem f hg, hg2, hg3⟩
        · split at h
          · cases h
          · rename_i mf heq2
            injection h with h
            have hmoves : moves
                = (oJoin dirpath f, get_unused_path fs (oJoin output_dir relative_dir) f)
                    :: mf.1 :=
              (congrArg Prod.fst h).symm
            rw [hmoves] at hsd
            cases List.mem_cons.mp hsd with
            | inl hhead =>
              exact ⟨f, List.mem_cons_self f rest, hpng, by rw [hhead]⟩
            | inr htail =>
              obtain ⟨g, hg, hg2, hg3⟩ := ih _ mf.1 mf.2 (by rw [heq2]) sd htail
              exact ⟨g, List.mem_cons_of_mem f hg, hg2, hg3⟩
    · rw [if_neg hpng] at h
      obtain ⟨g, hg, hg2, hg3⟩ := ih fs moves fsOut h sd hsd
      exact ⟨g, List.mem_cons_of_mem f hg, hg2, hg3⟩

/-- C9: a file whose name does not end in `".png"` has no effect at all on the
per-directory run — processing `f :: rest` equals processing `rest` with the
same state (so `f` is never read, classified, renamed, or moved) — and every
move that is performed has a `".png"`-suffixed source from the remaining
list. -/
theorem claim9_non_png_untouched (readData : String → List Char)
    (output_dir dirpath f : String) (rest fs : List String)
    (hf : endswith f ".png" = false) :
    processFiles readData output_dir dirpath (f :: rest) fs
        = processFiles readData output_dir dirpath rest fs
      ∧ ∀ (moves : List (String × String)) (fsOut : List String),
          processFiles readData output_dir dirpath (f :: rest) fs = Except.ok (moves, fsOut) →
          ∀ sd ∈ moves, ∃ g, g ∈ rest ∧ endswith g ".png" = true ∧ sd.1 = oJoin dirpath g := by
  have hskip : processFiles readData output_dir dirpath (f :: rest) fs
      = processFiles readData output_dir dirpath rest fs := by
    simp only [processFiles]
    rw [if_neg (by rw [hf]; decide)]
  refine ⟨hskip, ?_⟩
  intro moves fsOut h sd hsd
  rw [hskip] at h
  exact processFiles_moves_src readData output_dir dirpath rest fs moves fsOut h sd hsd

/-- C9, witness instantiating `claim9_non_png_untouched` on `"a.txt"`. -/
theorem claim9_witness :
    endswith "a.txt" ".png" = false
      ∧ (processFiles (fun _ => []) "o" "p" ["a.txt"] []
            = processFiles (fun _ => []) "o" "p" [] []
        ∧ ∀ (moves : List (String × String)) (fsOut : List String),
            processFiles (fun _ => []) "o" "p" ["a.txt"] [] = Except.ok (moves, fsOut) →
            ∀ sd ∈ moves, ∃ g, g ∈ ([] : List String)
              ∧ endswith g ".png" = true ∧ sd.1 = oJoin "p" g) :=
  ⟨by decide, claim9_non_png_untouched (fun _ => []) "o" "p" "a.txt" [] [] (by decide)⟩


end CardOrganizer
